import Mathlib

set_option maxHeartbeats 1000000

/-!
Shallow embedding of the data layer of `lazyf1.py` (class `F1Data` and the race
cursor of `RaceResultsWidget`), together with theorems settling the frozen
claims about it.

The external data source (fastf1) is modelled as an oracle `Env`: a fallible
season-schedule fetch and a fallible per-round results fetch, plus the current
time.  Python exceptions raised by the source are modelled as `Except.error`;
the `try`/`except` blocks of the source become `match`es on those values.
Pandas result rows become the structure `ResultRow`; `NaN` cells become `none`.
Python's insertion-ordered dictionaries become association lists, and
`sorted(..., key=points, reverse=True)` (a stable descending sort) becomes the
stable insertion sort `sortByPointsDesc`.
-/

namespace LazyF1

/-- Heterogeneous cell value of the returned row dictionaries: the Python rows
mix strings ("N/A", "Error", "DNF", ""), integers (ranks, wins, rounds, dates)
and numeric points. -/
inductive Val where
  | str : String → Val
  | int : Int → Val
  | rat : ℚ → Val
deriving DecidableEq, Repr

/-- One competitor's outcome in one event, as read from `race.results` rows:
fields `FirstName`, `LastName`, `TeamName`, `Position` (NaN ↦ `none`),
`Time` (NaN ↦ `none`), `Points`. -/
structure ResultRow where
  firstName : String
  lastName : String
  teamName : String
  position : Option Nat
  time : Option String
  points : ℚ
deriving DecidableEq, Repr

/-- One row of the season schedule: fields `RoundNumber`, `EventName`,
`Location`, `EventDate` (a timestamp, modelled as `Int`) and
`Session5DateUtc` (possibly NaT ↦ `none`). -/
structure Event where
  roundNumber : Nat
  eventName : String
  location : String
  eventDate : Int
  session5Date : Option Int
deriving DecidableEq, Repr

/-- The external source together with the current time: a fallible schedule
fetch (`fastf1.get_event_schedule`) and, per round number, a fallible fetch of
that round's race-result rows (`fastf1.get_session` + `load` + `.results`). -/
structure Env where
  schedule : Except Unit (List Event)
  results : Nat → Except Unit (List ResultRow)
  now : Int

/-- Accumulated per-key state during standings aggregation: total points, win
count, and the extra display string (team name for drivers, nationality for
teams), exactly the per-key dict built at lines 134-143 / 192-201. -/
structure AccEntry where
  points : ℚ
  wins : Nat
  extra : String
deriving DecidableEq, Repr

/-- Full competitor name, `f"{row['FirstName']} {row['LastName']}"`. -/
def driverName (r : ResultRow) : String :=
  r.firstName ++ " " ++ r.lastName

/-- The static team-name → nationality table of `_get_team_nationality`
(lines 228-244), with the "Unknown" fallback. -/
def teamNationality (teamName : String) : String :=
  if teamName = "Red Bull Racing" then "Austrian"
  else if teamName = "Mercedes" then "German"
  else if teamName = "Ferrari" then "Italian"
  else if teamName = "McLaren" then "British"
  else if teamName = "Aston Martin" then "British"
  else if teamName = "Alpine" then "French"
  else if teamName = "Williams" then "British"
  else if teamName = "AlphaTauri" then "Italian"
  else if teamName = "Haas F1 Team" then "American"
  else if teamName = "Alfa Romeo" then "Swiss"
  else if teamName = "Racing Bulls" then "Italian"
  else if teamName = "Kick Sauber" then "Swiss"
  else "Unknown"

/-- Add one result row's contribution to an accumulator entry:
`points += row['Points']`; `wins += 1` when `row['Position'] == 1`
(lines 141-143 / 199-201). -/
def bumpRow (r : ResultRow) (a : AccEntry) : AccEntry :=
  { a with
    points := a.points + r.points,
    wins := a.wins + (if r.position = some 1 then 1 else 0) }

/-- Process one result row into the insertion-ordered accumulation map
(lines 132-143 / 190-201): if the key is absent, append a fresh zero entry
whose extra string is taken from this row; then bump points and wins.
Generic in the key (`driver` full name / `TeamName`) and in the extra string
(`row['TeamName']` / nationality lookup). -/
def addRowG (key extra : ResultRow → String) (m : List (String × AccEntry))
    (r : ResultRow) : List (String × AccEntry) :=
  if m.any (fun p => p.1 == key r) then
    m.map (fun p => if p.1 == key r then (p.1, bumpRow r p.2) else p)
  else
    m ++ [(key r, bumpRow r ⟨0, 0, extra r⟩)]

/-- Fold all completed rounds (in schedule order): a round whose results fetch
fails is skipped silently (`except: continue`, lines 128-145 / 186-203). -/
def accumulateG (key extra : ResultRow → String) (env : Env)
    (rounds : List Nat) : List (String × AccEntry) :=
  rounds.foldl
    (fun m r =>
      match env.results r with
      | .ok rows => rows.foldl (addRowG key extra) m
      | .error _ => m)
    []

/-- Lookup of the first entry with the given key in an accumulation map. -/
def findEntry (k : String) : List (String × AccEntry) → Option AccEntry
  | [] => none
  | p :: ps => if p.1 == k then some p.2 else findEntry k ps

/-- Insert an element into a list already sorted by points descending, after
every element with greater-or-equal points (the stable position). -/
def insertByPointsDesc (x : String × AccEntry) :
    List (String × AccEntry) → List (String × AccEntry)
  | [] => [x]
  | y :: ys =>
    if y.2.points < x.2.points then x :: y :: ys
    else y :: insertByPointsDesc x ys

/-- Stable sort by points descending, modelling
`sorted(items, key=lambda x: x[1]['points'], reverse=True)`
(lines 148-150 / 206-208): Python's sort is stable, and a stable descending
order is unique, so this insertion sort returns exactly the Python result. -/
def sortByPointsDesc (l : List (String × AccEntry)) : List (String × AccEntry) :=
  l.foldl (fun s x => insertByPointsDesc x s) []

/-- One row of the driver-standings table. -/
structure DriverRow where
  position : Val
  driver : String
  team : String
  points : Val
  wins : Val
deriving DecidableEq, Repr

/-- One row of the constructor-standings table. -/
structure TeamRow where
  position : Val
  team : String
  nationality : String
  points : Val
  wins : Val
deriving DecidableEq, Repr

/-- One row of the schedule table. -/
structure ScheduleRow where
  round : Val
  name : String
  circuit : String
  date : Val
  status : String
deriving DecidableEq, Repr

/-- One row of the race-results table.  The "no completed races" sentinel dict
has no `race_name` key at all (line 296), so that field is an `Option`. -/
structure RaceRow where
  position : Val
  driver : String
  team : String
  time : Val
  points : Val
  race_name : Option String
deriving DecidableEq, Repr

/-- Sentinel of line 109. -/
def noRacesDriverRow : DriverRow :=
  ⟨Val.str "N/A", "No completed races", "", Val.str "", Val.str ""⟩

/-- Sentinel of line 168. -/
def errorDriverRow : DriverRow :=
  ⟨Val.str "Error", "Failed to load data", "", Val.str "", Val.str ""⟩

/-- Sentinel of line 181. -/
def noRacesTeamRow : TeamRow :=
  ⟨Val.str "N/A", "No completed races", "", Val.str "", Val.str ""⟩

/-- Sentinel of line 226. -/
def errorTeamRow : TeamRow :=
  ⟨Val.str "Error", "Failed to load data", "", Val.str "", Val.str ""⟩

/-- Sentinel of line 276. -/
def errorScheduleRow : ScheduleRow :=
  ⟨Val.str "Error", "Failed to load data", "", Val.str "", ""⟩

/-- Sentinel of line 296 (no `race_name` key). -/
def noRacesRaceRow : RaceRow :=
  ⟨Val.str "N/A", "No completed races", "", Val.str "", Val.str "", none⟩

/-- Sentinel of line 335. -/
def errorRaceRow : RaceRow :=
  ⟨Val.str "Error", "Failed to load data", "", Val.str "", Val.str "", some "Error"⟩

/-- Standings-table row built from the `i`-th (0-based) sorted entry
(lines 154-161): 1-based rank, key, extra string, points, wins. -/
def mkDriverRow (i : Nat) (e : String × AccEntry) : DriverRow :=
  ⟨Val.int ((i : Int) + 1), e.1, e.2.extra, Val.rat e.2.points,
    Val.int (e.2.wins : Int)⟩

/-- The `for i, (driver, data) in enumerate(sorted_drivers)` loop, carrying the
running index. -/
def driverRowsFrom : Nat → List (String × AccEntry) → List DriverRow
  | _, [] => []
  | i, e :: es => mkDriverRow i e :: driverRowsFrom (i + 1) es

/-- Lines 147-161: sort the accumulation map by points descending and emit the
ranked driver table. -/
def driverStandingsTable (acc : List (String × AccEntry)) : List DriverRow :=
  driverRowsFrom 0 (sortByPointsDesc acc)

/-- Constructor-standings row from the `i`-th sorted entry (lines 212-219). -/
def mkTeamRow (i : Nat) (e : String × AccEntry) : TeamRow :=
  ⟨Val.int ((i : Int) + 1), e.1, e.2.extra, Val.rat e.2.points,
    Val.int (e.2.wins : Int)⟩

/-- The `for i, (team, data) in enumerate(sorted_teams)` loop. -/
def teamRowsFrom : Nat → List (String × AccEntry) → List TeamRow
  | _, [] => []
  | i, e :: es => mkTeamRow i e :: teamRowsFrom (i + 1) es

/-- Lines 205-219: sort the team accumulation map and emit the ranked table. -/
def teamStandingsTable (acc : List (String × AccEntry)) : List TeamRow :=
  teamRowsFrom 0 (sortByPointsDesc acc)

/-- The completed-events filter
`schedule[schedule['EventDate'] < pd.Timestamp(datetime.now())]`
(lines 105 / 177 / 282), preserving schedule order. -/
def completedOf (now : Int) (sched : List Event) : List Event :=
  sched.filter (fun e => decide (e.eventDate < now))

/-- The round numbers of the completed events, in schedule order
(`completed_races['RoundNumber']`, lines 127 / 185). -/
def roundsOf (now : Int) (sched : List Event) : List Nat :=
  (completedOf now sched).map (fun e => e.roundNumber)

/-- Driver accumulation map: keyed by full name, extra string = team name of
the first row seen for that driver (lines 126-145). -/
def driverAcc (env : Env) (rounds : List Nat) : List (String × AccEntry) :=
  accumulateG driverName (fun r => r.teamName) env rounds

/-- Team accumulation map: keyed by team name, extra string = nationality
looked up when the team is first seen (lines 184-203). -/
def teamAcc (env : Env) (rounds : List Nat) : List (String × AccEntry) :=
  accumulateG (fun r => r.teamName) (fun r => teamNationality r.teamName)
    env rounds

/-- `F1Data.get_driver_standings` (lines 97-168).  The whole body runs in one
`try`; a schedule-fetch failure hits the outer `except` and yields the error
sentinel.  Note that before the accumulation loop the code also loads the most
recent race's session (lines 112-123, whose `results` value is otherwise
unused): a failure of that load likewise hits the outer `except`. -/
def get_driver_standings (env : Env) : List DriverRow :=
  match env.schedule with
  | .error _ => [errorDriverRow]
  | .ok sched =>
    let completed := completedOf env.now sched
    match completed.getLast? with
    | none => [noRacesDriverRow]
    | some lastRace =>
      match env.results lastRace.roundNumber with
      | .error _ => [errorDriverRow]
      | .ok _ =>
        driverStandingsTable (driverAcc env (completed.map (fun e => e.roundNumber)))

/-- `F1Data.get_team_standings` (lines 170-226): same shape, keyed by team
name, nationality attached at first sight, and no pre-loop session load. -/
def get_team_standings (env : Env) : List TeamRow :=
  match env.schedule with
  | .error _ => [errorTeamRow]
  | .ok sched =>
    let completed := completedOf env.now sched
    if completed.isEmpty then [noRacesTeamRow]
    else
      teamStandingsTable (teamAcc env (completed.map (fun e => e.roundNumber)))

/-- Event display status (lines 256-260); comparison with a missing
`Session5DateUtc` (NaT) is false in pandas, hence the `none ↦ false`. -/
def eventStatus (now : Int) (e : Event) : String :=
  if e.eventDate < now then "Completed"
  else if (match e.session5Date with | some d => decide (d < now) | none => false)
  then "In Progress"
  else "Upcoming"

/-- `F1Data.get_race_schedule` (lines 246-276).  The date cell keeps the raw
timestamp; the `strftime` display formatting is abstracted. -/
def get_race_schedule (env : Env) : List ScheduleRow :=
  match env.schedule with
  | .error _ => [errorScheduleRow]
  | .ok sched =>
    sched.map (fun e =>
      ⟨Val.int e.roundNumber, e.eventName, e.location, Val.int e.eventDate,
        eventStatus env.now e⟩)

/-- `F1Data.get_completed_races` (lines 278-286): its own `try`/`except`
converts a schedule-fetch failure into an empty frame. -/
def get_completed_races (env : Env) : List Event :=
  match env.schedule with
  | .error _ => []
  | .ok sched => completedOf env.now sched

/-- Formatting of one fetched result row (lines 320-328), augmented with the
selected event's display name. -/
def mkRaceRow (name : String) (r : ResultRow) : RaceRow :=
  ⟨(match r.position with | some p => Val.int (p : Int) | none => Val.str "DNF"),
    driverName r, r.teamName,
    (match r.time with | some t => Val.str t | none => Val.str "DNF"),
    Val.rat r.points, some name⟩

/-- Fetch and format one event's result rows (lines 308-331); a fetch failure
hits the outer `except` of `get_race_results` and yields the error sentinel. -/
def eventResultsOf (env : Env) (e : Event) : List RaceRow :=
  match env.results e.roundNumber with
  | .error _ => [errorRaceRow]
  | .ok rows => rows.map (mkRaceRow e.eventName)

/-- `F1Data.get_race_results` (lines 288-335): `None` or `-1` selects the most
recent completed event; any other index is clamped into `[0, n-1]`
(`idx = max(0, min(race_index, len(completed_races) - 1))`, line 304). -/
def get_race_results (env : Env) (race_index : Option Int) : List RaceRow :=
  let completed := get_completed_races env
  match completed.getLast? with
  | none => [noRacesRaceRow]
  | some lastRace =>
    let race :=
      match race_index with
      | none => lastRace
      | some k =>
        if k = -1 then lastRace
        else completed.getD (max 0 (min k ((completed.length : Int) - 1))).toNat
              lastRace
    eventResultsOf env race

/-- `RaceResultsWidget.previous_race` (lines 499-513) as a function of the
completed-event count and the current index. -/
def previous_race (n : Nat) (i : Int) : Int :=
  if i = 0 then i
  else if i = -1 then (n : Int) - 2
  else max 0 (i - 1)

/-- `RaceResultsWidget.next_race` (lines 515-530): the increment guard and the
normalization check run in sequence on the updated index. -/
def next_race (n : Nat) (i : Int) : Int :=
  if i = -1 then i
  else
    let j := if i < (n : Int) - 1 then i + 1 else i
    if j = (n : Int) - 1 then -1 else j

/-- Numeric reading of a points cell (only used to state ordering facts). -/
def ratOf : Val → ℚ
  | .rat q => q
  | _ => 0

/-- Accumulated points of key `k` (0 when absent). -/
def accPoints (k : String) (m : List (String × AccEntry)) : ℚ :=
  match findEntry k m with
  | some a => a.points
  | none => 0

/-- Accumulated win count of key `k` (0 when absent). -/
def accWins (k : String) (m : List (String × AccEntry)) : Nat :=
  match findEntry k m with
  | some a => a.wins
  | none => 0

/-- Recorded extra string (team name / nationality) of key `k`. -/
def accExtra (k : String) (m : List (String × AccEntry)) : Option String :=
  (findEntry k m).map (fun a => a.extra)

/-- The rows a round contributes to the aggregation: its fetched result rows,
or nothing when the fetch fails (the `except: continue`). -/
def rowsOf (env : Env) (r : Nat) : List ResultRow :=
  match env.results r with
  | .ok rows => rows
  | .error _ => []

/-- All successfully fetched result rows of the given rounds, concatenated in
schedule order. -/
def fetchedRows (env : Env) : List Nat → List ResultRow
  | [] => []
  | r :: rs => rowsOf env r ++ fetchedRows env rs

/-- Total points of the rows keyed to `X`. -/
def pointsFor (key : ResultRow → String) (X : String)
    (rows : List ResultRow) : ℚ :=
  ((rows.filter (fun r => key r == X)).map (fun r => r.points)).sum

/-- Number of rows keyed to `X` whose finishing position is exactly 1. -/
def winsFor (key : ResultRow → String) (X : String)
    (rows : List ResultRow) : Nat :=
  (rows.filter (fun r => key r == X && r.position == some 1)).length

/-- An environment with an empty (successfully fetched) season schedule. -/
def envEmptySeason : Env :=
  ⟨Except.ok [], fun _ => Except.error (), 0⟩

/-- A generic completed event with the given round number. -/
def evR (r : Nat) : Event :=
  ⟨r, "GP", "L", (r : Int), none⟩

/-- A single generic winning result row. -/
def rowsSimple : List ResultRow :=
  [⟨"A", "B", "T", some 1, some "t", 25⟩]

def evW1 : Event := ⟨1, "GP One", "Loc1", 1, none⟩

def evW2 : Event := ⟨2, "GP Two", "Loc2", 2, none⟩

def evW3 : Event := ⟨3, "GP Three", "Loc3", 3, none⟩

def rowW1 : ResultRow := ⟨"Alpha", "One", "TeamX", some 1, some "1:30:00", 25⟩

def rowW2 : ResultRow := ⟨"Beta", "Two", "TeamY", some 2, some "1:30:05", 18⟩

def rowW3 : ResultRow := ⟨"Alpha", "One", "TeamX", some 3, some "1:29:00", 15⟩

def rowW4 : ResultRow := ⟨"Beta", "Two", "TeamY", some 1, some "1:28:55", 25⟩

/-- Two completed events, both fetches succeeding. -/
def envTwoRaces : Env :=
  ⟨Except.ok [evW1, evW2],
    fun r =>
      if r = 1 then Except.ok [rowW1, rowW2]
      else if r = 2 then Except.ok [rowW4, rowW3]
      else Except.error (),
    10⟩

/-- Three completed events: driver "Alpha One" wins rounds 1 and 2 and
finishes third in round 3. -/
def envThreeRaces : Env :=
  ⟨Except.ok [evW1, evW2, evW3],
    fun r =>
      if r = 1 then Except.ok [rowW1, rowW2]
      else if r = 2 then Except.ok [rowW1]
      else if r = 3 then Except.ok [rowW3, rowW4]
      else Except.error (),
    10⟩

def rowFirstTeam : ResultRow := ⟨"Alpha", "One", "TeamFirst", some 1, some "t", 25⟩

def rowSecondTeam : ResultRow := ⟨"Alpha", "One", "TeamSecond", some 1, some "t", 25⟩

/-- Two completed events in which the same driver appears under two different
team names. -/
def envTeamChange : Env :=
  ⟨Except.ok [evW1, evW2],
    fun r =>
      if r = 1 then Except.ok [rowFirstTeam]
      else if r = 2 then Except.ok [rowSecondTeam]
      else Except.error (),
    10⟩

/-- One completed event whose results fetch fails (so every event fetch of the
season fails). -/
def envAllFail : Env :=
  ⟨Except.ok [evR 1], fun _ => Except.error (), 10⟩

/-- Five completed events; fetching the results of the most recent one
(round 5) fails, all others succeed. -/
def envLastFails : Env :=
  ⟨Except.ok [evR 1, evR 2, evR 3, evR 4, evR 5],
    fun r => if r = 5 then Except.error () else Except.ok rowsSimple, 10⟩

/-- The same source restricted to the four events whose fetch succeeds. -/
def envLastRemoved : Env :=
  ⟨Except.ok [evR 1, evR 2, evR 3, evR 4],
    fun r => if r = 5 then Except.error () else Except.ok rowsSimple, 10⟩

/-- Three completed events; fetching the middle one (round 2) fails. -/
def envMidFails : Env :=
  ⟨Except.ok [evR 1, evR 2, evR 3],
    fun r => if r = 2 then Except.error () else Except.ok rowsSimple, 10⟩

/-- C3 counterexample: the claim says that from index `-1` the new index
`n - 2` is clamped to `0` when negative, so that `n = 0` or `n = 1` yields
index `0`.  The code (line 510) does not clamp in the `-1` branch: with
`n = 0` the index becomes `-2` and with `n = 1` it becomes `-1`, never `0`. -/
theorem c3_counterexample :
    previous_race 0 (-1) = -2 ∧ previous_race 1 (-1) = -1 ∧
    ¬ previous_race 0 (-1) = 0 := by
  decide

/-- C3 (amended): from index `-1`, `previous_race` always sets the index to
`n - 2`, with no clamping — the result is negative (`-2`, resp. `-1`) when
`n = 0` or `n = 1`, and is the second-to-last index `n - 2 ≥ 0` once
`n ≥ 2`. -/
theorem c3_prev_race_from_latest (n : Nat) :
    previous_race n (-1) = (n : Int) - 2 := by
  norm_num [previous_race]

/-- C4: with `n ≥ 1` completed events, `next_race` is a no-op at `-1`; from
`0 ≤ i < n - 1` it moves to `i + 1`, except that a result equal to `n - 1`
is normalized to `-1` (in particular `next_race 5 3 = -1`); and
`previous_race` from index `0` stays at `0`. -/
theorem c4_cursor_laws (n : Nat) (hn : 1 ≤ n) :
    next_race n (-1) = -1 ∧
    (∀ i : Int, 0 ≤ i → i < (n : Int) - 1 →
      next_race n i = if i + 1 = (n : Int) - 1 then -1 else i + 1) ∧
    next_race 5 3 = -1 ∧
    previous_race n 0 = 0 := by
  refine ⟨by norm_num [next_race], ?_, by decide, by norm_num [previous_race]⟩
  intro i h0 hlt
  have hne : ¬ i = -1 := by omega
  simp [next_race, hne, hlt]

/-- C4 witness at `n = 5`, `i = 3`. -/
theorem c4_cursor_laws_witness :
    next_race 5 (-1) = -1 ∧ next_race 5 3 = -1 ∧ previous_race 5 0 = 0 := by
  have h := c4_cursor_laws 5 (by decide)
  have h2 := h.2.1 3 (by decide) (by decide)
  exact ⟨h.1, by rw [h2]; norm_num, h.2.2.2⟩

/-- C5: whenever the season's completed-event set is empty (the schedule fetch
succeeded but no event date lies strictly before now), `get_driver_standings`,
`get_team_standings` and `get_race_results` each return exactly the single
"No completed races" sentinel row, never an empty sequence. -/
theorem c5_empty_season_sentinels (env : Env) (sched : List Event)
    (hs : env.schedule = .ok sched)
    (he : completedOf env.now sched = []) :
    get_driver_standings env = [noRacesDriverRow] ∧
    get_team_standings env = [noRacesTeamRow] ∧
    ∀ idx : Option Int, get_race_results env idx = [noRacesRaceRow] := by
  refine ⟨?_, ?_, ?_⟩
  · simp [get_driver_standings, hs, he]
  · simp [get_team_standings, hs, he]
  · intro idx
    simp [get_race_results, get_completed_races, hs, he]

theorem mem_insertByPointsDesc {z x : String × AccEntry}
    {s : List (String × AccEntry)} (h : z ∈ insertByPointsDesc x s) :
    z = x ∨ z ∈ s := by
  induction s with
  | nil => simpa [insertByPointsDesc] using h
  | cons y ys ih =>
    by_cases hc : y.2.points < x.2.points
    · simp only [insertByPointsDesc, if_pos hc, List.mem_cons] at h
      rcases h with h | h | h
      · exact Or.inl h
      · exact Or.inr (by simp [h])
      · exact Or.inr (List.mem_cons_of_mem _ h)
    · simp only [insertByPointsDesc, if_neg hc, List.mem_cons] at h
      rcases h with h | h
      · exact Or.inr (by simp [h])
      · rcases ih h with h1 | h1
        · exact Or.inl h1
        · exact Or.inr (List.mem_cons_of_mem _ h1)

theorem insertByPointsDesc_sorted (x : String × AccEntry)
    {s : List (String × AccEntry)}
    (hs : s.Pairwise (fun a b => b.2.points ≤ a.2.points)) :
    (insertByPointsDesc x s).Pairwise (fun a b => b.2.points ≤ a.2.points) := by
  induction s with
  | nil => simp [insertByPointsDesc]
  | cons y ys ih =>
    rw [List.pairwise_cons] at hs
    obtain ⟨hy, hys⟩ := hs
    by_cases hc : y.2.points < x.2.points
    · simp only [insertByPointsDesc, if_pos hc]
      refine List.Pairwise.cons ?_ (List.Pairwise.cons hy hys)
      intro z hz
      rcases List.mem_cons.mp hz with h | h
      · exact h ▸ le_of_lt hc
      · exact le_trans (hy z h) (le_of_lt hc)
    · simp only [insertByPointsDesc, if_neg hc]
      refine List.Pairwise.cons ?_ (ih hys)
      intro z hz
      rcases mem_insertByPointsDesc hz with h | h
      · exact h ▸ not_lt.mp hc
      · exact hy z h

theorem insertByPointsDesc_perm (x : String × AccEntry)
    (s : List (String × AccEntry)) :
    (insertByPointsDesc x s).Perm (x :: s) := by
  induction s with
  | nil => simp [insertByPointsDesc]
  | cons y ys ih =>
    by_cases hc : y.2.points < x.2.points
    · simp [insertByPointsDesc, if_pos hc]
    · simp only [insertByPointsDesc, if_neg hc]
      exact (ih.cons y).trans (List.Perm.swap x y ys)

theorem filter_insertByPointsDesc (q : ℚ) (x : String × AccEntry)
    {s : List (String × AccEntry)}
    (hs : s.Pairwise (fun a b => b.2.points ≤ a.2.points)) :
    (insertByPointsDesc x s).filter (fun e => e.2.points == q) =
      s.filter (fun e => e.2.points == q) ++
        (if x.2.points = q then [x] else []) := by
  induction s with
  | nil =>
    by_cases hx : x.2.points = q <;> simp [insertByPointsDesc, hx]
  | cons y ys ih =>
    rw [List.pairwise_cons] at hs
    obtain ⟨hy, hys⟩ := hs
    by_cases hc : y.2.points < x.2.points
    · simp only [insertByPointsDesc, if_pos hc]
      by_cases hx : x.2.points = q
      · have hempty : (y :: ys).filter (fun e => e.2.points == q) = [] := by
          rw [List.filter_eq_nil_iff]
          intro z hz
          simp only [beq_iff_eq]
          rcases List.mem_cons.mp hz with h | h
          · subst h
            intro hzq
            rw [hzq, hx] at hc
            exact lt_irrefl q hc
          · intro hzq
            have h1 : z.2.points < x.2.points := lt_of_le_of_lt (hy z h) hc
            rw [hzq, hx] at h1
            exact lt_irrefl q h1
        simp [List.filter_cons, beq_iff_eq, hx, hempty]
      · simp [List.filter_cons, beq_iff_eq, hx]
    · simp only [insertByPointsDesc, if_neg hc]
      rw [List.filter_cons, List.filter_cons, ih hys]
      by_cases hy' : y.2.points = q <;> simp [hy']

theorem foldl_insert_sorted (l : List (String × AccEntry))
    {s : List (String × AccEntry)}
    (hs : s.Pairwise (fun a b => b.2.points ≤ a.2.points)) :
    (l.foldl (fun s x => insertByPointsDesc x s) s).Pairwise
      (fun a b => b.2.points ≤ a.2.points) := by
  induction l generalizing s with
  | nil => exact hs
  | cons x xs ih => exact ih (insertByPointsDesc_sorted x hs)

theorem sortByPointsDesc_sorted (l : List (String × AccEntry)) :
    (sortByPointsDesc l).Pairwise (fun a b => b.2.points ≤ a.2.points) :=
  foldl_insert_sorted l (by simp)

theorem foldl_insert_filter (q : ℚ) (l : List (String × AccEntry))
    {s : List (String × AccEntry)}
    (hs : s.Pairwise (fun a b => b.2.points ≤ a.2.points)) :
    (l.foldl (fun s x => insertByPointsDesc x s) s).filter
        (fun e => e.2.points == q) =
      s.filter (fun e => e.2.points == q) ++
        l.filter (fun e => e.2.points == q) := by
  induction l generalizing s with
  | nil => simp
  | cons x xs ih =>
    rw [List.foldl_cons, ih (insertByPointsDesc_sorted x hs),
      filter_insertByPointsDesc q x hs, List.filter_cons, List.append_assoc]
    by_cases hx : x.2.points = q <;> simp [hx]

/-- Stability of the descending sort: for each points value the sublist of
entries carrying it is unchanged, hence equal points keep first-seen order. -/
theorem sortByPointsDesc_stable (q : ℚ) (l : List (String × AccEntry)) :
    (sortByPointsDesc l).filter (fun e => e.2.points == q) =
      l.filter (fun e => e.2.points == q) := by
  simpa using foldl_insert_filter q l (by simp)

theorem foldl_insert_perm (l : List (String × AccEntry))
    (s : List (String × AccEntry)) :
    (l.foldl (fun s x => insertByPointsDesc x s) s).Perm (s ++ l) := by
  induction l generalizing s with
  | nil => simp
  | cons x xs ih =>
    rw [List.foldl_cons]
    refine (ih (insertByPointsDesc x s)).trans ?_
    refine (List.Perm.append_right xs (insertByPointsDesc_perm x s)).trans ?_
    exact List.perm_middle.symm

theorem sortByPointsDesc_perm (l : List (String × AccEntry)) :
    (sortByPointsDesc l).Perm l := by
  simpa using foldl_insert_perm l []

theorem driverRowsFrom_length (n : Nat) (l : List (String × AccEntry)) :
    (driverRowsFrom n l).length = l.length := by
  induction l generalizing n with
  | nil => rfl
  | cons e es ih => simp [driverRowsFrom, ih]

theorem driverRowsFrom_get (n : Nat) (l : List (String × AccEntry)) (i : Nat)
    (h : i < (driverRowsFrom n l).length) (h' : i < l.length) :
    (driverRowsFrom n l).get ⟨i, h⟩ = mkDriverRow (n + i) (l.get ⟨i, h'⟩) := by
  induction l generalizing n i with
  | nil => exact absurd h' (by simp)
  | cons e es ih =>
    cases i with
    | zero => rfl
    | succ j =>
      have hj : j < (driverRowsFrom (n + 1) es).length := by
        simpa [driverRowsFrom] using h
      have hj' : j < es.length := by simpa using h'
      calc (driverRowsFrom n (e :: es)).get ⟨j + 1, h⟩
          = (driverRowsFrom (n + 1) es).get ⟨j, hj⟩ := rfl
        _ = mkDriverRow (n + 1 + j) (es.get ⟨j, hj'⟩) := ih (n + 1) j hj hj'
        _ = mkDriverRow (n + (j + 1)) ((e :: es).get ⟨j + 1, h'⟩) := by
            rw [Nat.add_assoc, Nat.add_comm 1 j]
            rfl

theorem mem_driverRowsFrom {r : DriverRow} {n : Nat}
    {l : List (String × AccEntry)} (h : r ∈ driverRowsFrom n l) :
    ∃ j e, e ∈ l ∧ r = mkDriverRow j e := by
  induction l generalizing n with
  | nil => simpa [driverRowsFrom] using h
  | cons e es ih =>
    rcases List.mem_cons.mp h with h1 | h1
    · exact ⟨n, e, by simp, h1⟩
    · obtain ⟨j, e', he', hr⟩ := ih h1
      exact ⟨j, e', List.mem_cons_of_mem _ he', hr⟩

theorem driverRowsFrom_pairwise (n : Nat) {l : List (String × AccEntry)}
    (hl : l.Pairwise (fun a b => b.2.points ≤ a.2.points)) :
    (driverRowsFrom n l).Pairwise
      (fun a b => ratOf b.points ≤ ratOf a.points) := by
  induction l generalizing n with
  | nil => simp [driverRowsFrom]
  | cons e es ih =>
    rw [List.pairwise_cons] at hl
    obtain ⟨he, hes⟩ := hl
    refine List.Pairwise.cons ?_ (ih (n + 1) hes)
    intro r hr
    obtain ⟨j, e', he', hre⟩ := mem_driverRowsFrom hr
    subst hre
    exact he e' he'

/-- Non-sentinel path of `get_driver_standings`: with a fetched schedule, a
nonempty completed set whose most recent event's results load succeeds, the
returned value is the ranked table of the accumulated map. -/
theorem get_driver_standings_eq_table (env : Env) (sched : List Event)
    (lastRace : Event) (rows : List ResultRow)
    (hs : env.schedule = .ok sched)
    (hl : (completedOf env.now sched).getLast? = some lastRace)
    (hr : env.results lastRace.roundNumber = .ok rows) :
    get_driver_standings env =
      driverStandingsTable (driverAcc env (roundsOf env.now sched)) := by
  simp [get_driver_standings, hs, hl, hr, roundsOf]

/-- Non-sentinel path of `get_team_standings`. -/
theorem get_team_standings_eq_table (env : Env) (sched : List Event)
    (hs : env.schedule = .ok sched)
    (hne : ¬ completedOf env.now sched = []) :
    get_team_standings env =
      teamStandingsTable (teamAcc env (roundsOf env.now sched)) := by
  simp [get_team_standings, hs, roundsOf, List.isEmpty_iff, hne]

/-- C1: the driver standings of the non-sentinel path are the ranked table of
the accumulated map, and for every accumulated map the table is sorted by
non-increasing points, stable (for each points value, the entries carrying it
appear in their original accumulation order), and carries 1-based ranks equal
to the sorted position. -/
theorem c1_driver_standings_sorted_stable_ranked
    (acc : List (String × AccEntry)) :
    (driverStandingsTable acc).Pairwise
        (fun a b => ratOf b.points ≤ ratOf a.points) ∧
    (∀ q : ℚ, (sortByPointsDesc acc).filter (fun e => e.2.points == q) =
        acc.filter (fun e => e.2.points == q)) ∧
    (∀ i (h : i < (driverStandingsTable acc).length),
      ((driverStandingsTable acc).get ⟨i, h⟩).position =
        Val.int ((i : Int) + 1)) ∧
    (∀ (env : Env) (sched : List Event) (lastRace : Event)
        (rows : List ResultRow),
      env.schedule = .ok sched →
      (completedOf env.now sched).getLast? = some lastRace →
      env.results lastRace.roundNumber = .ok rows →
      get_driver_standings env =
        driverStandingsTable (driverAcc env (roundsOf env.now sched))) := by
  refine ⟨?_, fun q => sortByPointsDesc_stable q acc, ?_, ?_⟩
  · exact driverRowsFrom_pairwise 0 (sortByPointsDesc_sorted acc)
  · intro i h
    have h2 : i < (driverRowsFrom 0 (sortByPointsDesc acc)).length := h
    have h' : i < (sortByPointsDesc acc).length := by
      rw [driverRowsFrom_length] at h2
      exact h2
    have hget : (driverStandingsTable acc).get ⟨i, h⟩
        = mkDriverRow (0 + i) ((sortByPointsDesc acc).get ⟨i, h'⟩) :=
      driverRowsFrom_get 0 (sortByPointsDesc acc) i h2 h'
    rw [hget]
    simp [mkDriverRow]
  · intro env sched lastRace rows hs hl hr
    exact get_driver_standings_eq_table env sched lastRace rows hs hl hr

/-- C1 witness: the non-sentinel-path conjunct applied to the concrete
two-event environment. -/
theorem c1_driver_standings_sorted_stable_ranked_witness :
    get_driver_standings envTwoRaces =
      driverStandingsTable (driverAcc envTwoRaces (roundsOf envTwoRaces.now [evW1, evW2])) :=
  (c1_driver_standings_sorted_stable_ranked []).2.2.2 envTwoRaces
    [evW1, evW2] evW2 [rowW4, rowW3] rfl (by decide) rfl

theorem findEntry_cons (k : String) (p : String × AccEntry)
    (ps : List (String × AccEntry)) :
    findEntry k (p :: ps) = if p.1 == k then some p.2 else findEntry k ps :=
  rfl

theorem findEntry_append_some {X : String} {m l : List (String × AccEntry)}
    {a : AccEntry} (h : findEntry X m = some a) :
    findEntry X (m ++ l) = some a := by
  induction m with
  | nil => simp [findEntry] at h
  | cons p ps ih =>
    by_cases hp : p.1 = X
    · simpa [findEntry, hp] using h
    · rw [List.cons_append, findEntry, if_neg (by simp [hp])]
      exact ih (by simpa [findEntry, hp] using h)

theorem findEntry_append_none {X : String} {m : List (String × AccEntry)}
    (l : List (String × AccEntry)) (h : findEntry X m = none) :
    findEntry X (m ++ l) = findEntry X l := by
  induction m with
  | nil => rfl
  | cons p ps ih =>
    by_cases hp : p.1 = X
    · simp [findEntry, hp] at h
    · rw [List.cons_append, findEntry, if_neg (by simp [hp])]
      exact ih (by simpa [findEntry, hp] using h)

theorem findEntry_eq_none {X : String} {m : List (String × AccEntry)}
    (h : ∀ p ∈ m, ¬ p.1 = X) : findEntry X m = none := by
  induction m with
  | nil => rfl
  | cons p ps ih =>
    rw [findEntry, if_neg (by simp [h p (by simp)])]
    exact ih (fun p hp => h p (List.mem_cons_of_mem _ hp))

theorem findEntry_map_bump (key : ResultRow → String) (X : String)
    (m : List (String × AccEntry)) (r : ResultRow) :
    findEntry X
        (m.map (fun p => if p.1 == key r then (p.1, bumpRow r p.2) else p)) =
      (findEntry X m).map (fun a => if key r = X then bumpRow r a else a) := by
  induction m with
  | nil => rfl
  | cons p ps ih =>
    rw [List.map_cons]
    by_cases hpk : p.1 = key r
    · rw [show (if p.1 == key r then (p.1, bumpRow r p.2) else p)
          = (p.1, bumpRow r p.2) from by simp [hpk]]
      rw [findEntry_cons, findEntry_cons]
      by_cases hpX : p.1 = X
      · have hkX : key r = X := by rw [← hpk]; exact hpX
        rw [if_pos (show ((p.1, bumpRow r p.2).1 == X) = true from by
              simpa using hpX),
          if_pos (show (p.1 == X) = true from by simpa using hpX)]
        simp [hkX]
      · rw [if_neg (show ¬ ((p.1, bumpRow r p.2).1 == X) = true from by
              simpa using hpX),
          if_neg (show ¬ (p.1 == X) = true from by simpa using hpX), ih]
    · rw [show (if p.1 == key r then (p.1, bumpRow r p.2) else p) = p from by
          simp [hpk]]
      rw [findEntry_cons, findEntry_cons]
      by_cases hpX : p.1 = X
      · have hkX : ¬ key r = X := fun h => hpk (by rw [hpX, h])
        rw [if_pos (show (p.1 == X) = true from by simpa using hpX),
          if_pos (show (p.1 == X) = true from by simpa using hpX)]
        simp [hkX]
      · rw [if_neg (show ¬ (p.1 == X) = true from by simpa using hpX),
          if_neg (show ¬ (p.1 == X) = true from by simpa using hpX), ih]

theorem findEntry_isSome_of_any {X : String} {m : List (String × AccEntry)}
    (h : m.any (fun p => p.1 == X) = true) : ∃ a, findEntry X m = some a := by
  induction m with
  | nil => simp at h
  | cons p ps ih =>
    by_cases hp : p.1 = X
    · exact ⟨p.2, by rw [findEntry_cons, if_pos (by simpa using hp)]⟩
    · rw [findEntry_cons, if_neg (by simpa using hp)]
      exact ih (by simpa [List.any_cons, hp] using h)

/-- Effect of processing one row on the looked-up entry of any key: the
matching key is bumped (starting from a fresh zero entry when absent), every
other key is untouched. -/
theorem findEntry_addRowG (key extra : ResultRow → String) (X : String)
    (m : List (String × AccEntry)) (r : ResultRow) :
    findEntry X (addRowG key extra m r) =
      if key r = X then
        some (bumpRow r ((findEntry X m).getD ⟨0, 0, extra r⟩))
      else findEntry X m := by
  by_cases hany : m.any (fun p => p.1 == key r) = true
  · rw [addRowG, if_pos hany, findEntry_map_bump]
    by_cases hk : key r = X
    · rw [hk] at hany
      obtain ⟨a, ha⟩ := findEntry_isSome_of_any hany
      rw [ha, if_pos hk]
      simp [hk]
    · rw [if_neg hk]
      cases hfe : findEntry X m <;> simp [hfe, hk]
  · rw [addRowG, if_neg hany]
    have hnone : ∀ p ∈ m, ¬ p.1 = key r := by
      intro p hp hc
      exact hany (List.any_eq_true.mpr ⟨p, hp, by simp [hc]⟩)
    by_cases hk : key r = X
    · have h0 : findEntry X m = none :=
        findEntry_eq_none (fun p hp h => hnone p hp (h.trans hk.symm))
      rw [findEntry_append_none _ h0, if_pos hk, h0]
      rw [findEntry_cons]
      simp [hk]
    · cases hfe : findEntry X m with
      | some a => rw [findEntry_append_some hfe, if_neg hk]
      | none =>
        rw [findEntry_append_none _ hfe, if_neg hk, findEntry_cons]
        simp [hk, findEntry]

/-- C5 witness on the concrete empty-schedule environment. -/
theorem c5_empty_season_sentinels_witness :
    get_driver_standings envEmptySeason = [noRacesDriverRow] ∧
    get_team_standings envEmptySeason = [noRacesTeamRow] ∧
    get_race_results envEmptySeason none = [noRacesRaceRow] := by
  have h := c5_empty_season_sentinels envEmptySeason [] rfl rfl
  exact ⟨h.1, h.2.1, h.2.2 none⟩

theorem accPoints_addRowG (key extra : ResultRow → String) (X : String)
    (m : List (String × AccEntry)) (r : ResultRow) :
    accPoints X (addRowG key extra m r) =
      accPoints X m + (if key r = X then r.points else 0) := by
  rw [accPoints, accPoints, findEntry_addRowG]
  by_cases hk : key r = X
  · cases hfe : findEntry X m with
    | some a => simp [hk, hfe, bumpRow]
    | none => simp [hk, hfe, bumpRow]
  · cases hfe : findEntry X m with
    | some a => simp [hk, hfe]
    | none => simp [hk, hfe]

theorem accWins_addRowG (key extra : ResultRow → String) (X : String)
    (m : List (String × AccEntry)) (r : ResultRow) :
    accWins X (addRowG key extra m r) =
      accWins X m +
        (if key r = X then (if r.position = some 1 then 1 else 0) else 0) := by
  rw [accWins, accWins, findEntry_addRowG]
  by_cases hk : key r = X
  · cases hfe : findEntry X m with
    | some a => simp [hk, hfe, bumpRow]
    | none => simp [hk, hfe, bumpRow]
  · cases hfe : findEntry X m with
    | some a => simp [hk, hfe]
    | none => simp [hk, hfe]

theorem accExtra_addRowG (key extra : ResultRow → String) (X : String)
    (m : List (String × AccEntry)) (r : ResultRow) :
    accExtra X (addRowG key extra m r) =
      match accExtra X m with
      | some t => some t
      | none => if key r = X then some (extra r) else none := by
  rw [accExtra, accExtra, findEntry_addRowG]
  by_cases hk : key r = X
  · cases hfe : findEntry X m with
    | some a => simp [hk, hfe, bumpRow]
    | none => simp [hk, hfe, bumpRow]
  · cases hfe : findEntry X m with
    | some a => simp [hk, hfe]
    | none => simp [hk, hfe]

theorem accPoints_foldl (key extra : ResultRow → String) (X : String)
    (rows : List ResultRow) (m : List (String × AccEntry)) :
    accPoints X (rows.foldl (addRowG key extra) m) =
      accPoints X m + pointsFor key X rows := by
  induction rows generalizing m with
  | nil => simp [pointsFor]
  | cons r rs ih =>
    rw [List.foldl_cons, ih, accPoints_addRowG, pointsFor, pointsFor,
      List.filter_cons]
    by_cases hk : key r = X
    · rw [if_pos hk,
        if_pos (show (key r == X) = true from by simpa using hk),
        List.map_cons, List.sum_cons]
      ring
    · rw [if_neg hk,
        if_neg (show ¬ (key r == X) = true from by simpa using hk)]
      ring

theorem accWins_foldl (key extra : ResultRow → String) (X : String)
    (rows : List ResultRow) (m : List (String × AccEntry)) :
    accWins X (rows.foldl (addRowG key extra) m) =
      accWins X m + winsFor key X rows := by
  induction rows generalizing m with
  | nil => simp [winsFor]
  | cons r rs ih =>
    rw [List.foldl_cons, ih, accWins_addRowG, winsFor, winsFor,
      List.filter_cons]
    by_cases hk : key r = X
    · by_cases hp : r.position = some 1
      · rw [if_pos hk, if_pos hp,
          if_pos (show (key r == X && r.position == some 1) = true from by
            simp [hk, hp]),
          List.length_cons]
        omega
      · rw [if_pos hk, if_neg hp,
          if_neg (show ¬ (key r == X && r.position == some 1) = true from by
            simp [hk, hp])]
        omega
    · rw [if_neg hk,
        if_neg (show ¬ (key r == X && r.position == some 1) = true from by
          simp [hk])]
      omega

theorem accExtra_foldl (key extra : ResultRow → String) (X : String)
    (rows : List ResultRow) (m : List (String × AccEntry)) :
    accExtra X (rows.foldl (addRowG key extra) m) =
      match accExtra X m with
      | some t => some t
      | none => (rows.find? (fun r => key r == X)).map extra := by
  induction rows generalizing m with
  | nil => cases hfe : accExtra X m <;> simp [hfe]
  | cons r rs ih =>
    rw [List.foldl_cons, ih, accExtra_addRowG, List.find?_cons]
    by_cases hk : key r = X
    · cases hfe : accExtra X m with
      | some t => simp [hfe, hk]
      | none => simp [hfe, hk]
    · cases hfe : accExtra X m with
      | some t => simp [hfe, hk]
      | none => simp [hfe, hk, (by simp [hk] : (key r == X) = false)]

theorem foldl_accumulate_eq (key extra : ResultRow → String) (env : Env)
    (rounds : List Nat) (m : List (String × AccEntry)) :
    rounds.foldl
        (fun m r =>
          match env.results r with
          | .ok rows => rows.foldl (addRowG key extra) m
          | .error _ => m) m =
      (fetchedRows env rounds).foldl (addRowG key extra) m := by
  induction rounds generalizing m with
  | nil => rfl
  | cons r rs ih =>
    rw [List.foldl_cons, fetchedRows, List.foldl_append, ih]
    congr 1
    cases henv : env.results r <;> simp [rowsOf, henv]

/-- The aggregation loop is the row-by-row fold over all successfully fetched
rows, in order. -/
theorem accumulateG_eq_foldl (key extra : ResultRow → String) (env : Env)
    (rounds : List Nat) :
    accumulateG key extra env rounds =
      (fetchedRows env rounds).foldl (addRowG key extra) [] :=
  foldl_accumulate_eq key extra env rounds []

theorem accPoints_accumulateG (key extra : ResultRow → String) (env : Env)
    (rounds : List Nat) (X : String) :
    accPoints X (accumulateG key extra env rounds) =
      pointsFor key X (fetchedRows env rounds) := by
  rw [accumulateG_eq_foldl, accPoints_foldl]
  simp [accPoints, findEntry]

theorem accWins_accumulateG (key extra : ResultRow → String) (env : Env)
    (rounds : List Nat) (X : String) :
    accWins X (accumulateG key extra env rounds) =
      winsFor key X (fetchedRows env rounds) := by
  rw [accumulateG_eq_foldl, accWins_foldl]
  simp [accWins, findEntry]

theorem accExtra_accumulateG (key extra : ResultRow → String) (env : Env)
    (rounds : List Nat) (X : String) :
    accExtra X (accumulateG key extra env rounds) =
      ((fetchedRows env rounds).find? (fun r => key r == X)).map extra := by
  rw [accumulateG_eq_foldl, accExtra_foldl]
  simp [accExtra, findEntry]

theorem keys_addRowG (key extra : ResultRow → String)
    (m : List (String × AccEntry)) (r : ResultRow) :
    (addRowG key extra m r).map Prod.fst =
      if m.any (fun p => p.1 == key r) = true then m.map Prod.fst
      else m.map Prod.fst ++ [key r] := by
  by_cases hany : m.any (fun p => p.1 == key r) = true
  · rw [addRowG, if_pos hany, if_pos hany, List.map_map]
    apply List.map_congr_left
    intro p hp
    by_cases hpk : p.1 = key r <;> simp [Function.comp, hpk]
  · rw [addRowG, if_neg hany, if_neg hany, List.map_append]
    rfl

theorem keys_nodup_addRowG (key extra : ResultRow → String)
    (m : List (String × AccEntry)) (r : ResultRow)
    (h : (m.map Prod.fst).Nodup) :
    ((addRowG key extra m r).map Prod.fst).Nodup := by
  rw [keys_addRowG]
  by_cases hany : m.any (fun p => p.1 == key r) = true
  · simpa [hany] using h
  · rw [if_neg hany, List.nodup_append]
    refine ⟨h, List.nodup_singleton _, ?_⟩
    intro a ha hb
    have hak : a = key r := by simpa using hb
    subst hak
    obtain ⟨p, hp, hpk⟩ := List.mem_map.mp ha
    exact hany (List.any_eq_true.mpr ⟨p, hp, by simp [hpk]⟩)

theorem keys_nodup_foldl (key extra : ResultRow → String)
    (rows : List ResultRow) (m : List (String × AccEntry))
    (h : (m.map Prod.fst).Nodup) :
    (((rows.foldl (addRowG key extra) m)).map Prod.fst).Nodup := by
  induction rows generalizing m with
  | nil => exact h
  | cons r rs ih => exact ih _ (keys_nodup_addRowG key extra m r h)

/-- The accumulation map binds each key at most once. -/
theorem keys_nodup_accumulateG (key extra : ResultRow → String) (env : Env)
    (rounds : List Nat) :
    ((accumulateG key extra env rounds).map Prod.fst).Nodup := by
  rw [accumulateG_eq_foldl]
  exact keys_nodup_foldl key extra _ [] (by simp)

theorem findEntry_of_mem {m : List (String × AccEntry)} {k : String}
    {a : AccEntry} (hnd : (m.map Prod.fst).Nodup) (hm : (k, a) ∈ m) :
    findEntry k m = some a := by
  induction m with
  | nil => simp at hm
  | cons p ps ih =>
    rw [List.map_cons, List.nodup_cons] at hnd
    obtain ⟨hp, hps⟩ := hnd
    rcases List.mem_cons.mp hm with h | h
    · rw [← h, findEntry_cons]
      simp
    · have hpk : ¬ p.1 = k := by
        intro hc
        exact hp (hc ▸ List.mem_map_of_mem Prod.fst h)
      rw [findEntry_cons, if_neg (by simpa using hpk)]
      exact ih hps h

theorem driverRowsFrom_map_driver (n : Nat) (l : List (String × AccEntry)) :
    (driverRowsFrom n l).map (fun r => r.driver) = l.map Prod.fst := by
  induction l generalizing n with
  | nil => rfl
  | cons e es ih => simp [driverRowsFrom, mkDriverRow, ih]

theorem teamRowsFrom_map_team (n : Nat) (l : List (String × AccEntry)) :
    (teamRowsFrom n l).map (fun r => r.team) = l.map Prod.fst := by
  induction l generalizing n with
  | nil => rfl
  | cons e es ih => simp [teamRowsFrom, mkTeamRow, ih]

/-- Every row of the driver table carries exactly the fields of one entry of
the accumulation map. -/
theorem driver_table_mem {acc : List (String × AccEntry)} {row : DriverRow}
    (hrow : row ∈ driverStandingsTable acc) :
    ∃ e : String × AccEntry, e ∈ acc ∧ row.driver = e.1 ∧
      row.team = e.2.extra ∧ row.points = Val.rat e.2.points ∧
      row.wins = Val.int (e.2.wins : Int) := by
  obtain ⟨j, e, he, hr⟩ := mem_driverRowsFrom hrow
  subst hr
  exact ⟨e, (sortByPointsDesc_perm acc).mem_iff.mp he, rfl, rfl, rfl, rfl⟩

theorem standings_envTeamChange_eval :
    get_driver_standings envTeamChange =
      [⟨Val.int 1, "Alpha One", "TeamFirst", Val.rat 50, Val.int 2⟩] := by
  simp [get_driver_standings, envTeamChange, completedOf, evW1, evW2,
    driverAcc, accumulateG, addRowG, bumpRow, driverName, rowFirstTeam,
    rowSecondTeam, driverStandingsTable, sortByPointsDesc, insertByPointsDesc,
    mkDriverRow, driverRowsFrom, findEntry,
    (by norm_num : (25 : ℚ) + 25 = 50)]

theorem standings_envThreeRaces_eval :
    get_driver_standings envThreeRaces =
      [⟨Val.int 1, "Alpha One", "TeamX", Val.rat 65, Val.int 2⟩,
        ⟨Val.int 2, "Beta Two", "TeamY", Val.rat 43, Val.int 1⟩] := by
  simp [get_driver_standings, envThreeRaces, completedOf, evW1, evW2, evW3,
    driverAcc, accumulateG, addRowG, bumpRow, driverName, rowW1, rowW2, rowW3,
    rowW4, driverStandingsTable, sortByPointsDesc, insertByPointsDesc,
    mkDriverRow, driverRowsFrom, findEntry,
    (by norm_num : (25 : ℚ) + 25 = 50),
    (by norm_num : (50 : ℚ) + 15 = 65),
    (by norm_num : (18 : ℚ) + 25 = 43),
    (by norm_num : ¬ (65 : ℚ) < 43)]

/-- C2 counterexample: with the same driver appearing under team "TeamFirst"
in the first event and "TeamSecond" in the second, the standings report
"TeamFirst" — the first-seen team name, not the most recently seen one the
claim (and spec) state. -/
theorem c2_counterexample :
    get_driver_standings envTeamChange =
      [⟨Val.int 1, "Alpha One", "TeamFirst", Val.rat 50, Val.int 2⟩] ∧
    ¬ "TeamFirst" = "TeamSecond" := by
  exact ⟨standings_envTeamChange_eval, by decide⟩

/-- C2 (amended): on the non-sentinel path, the team recorded for each
competitor in the returned standings is the team name of the FIRST fetched
result row for that competitor — the entry's team is set when the competitor
is first seen and never updated by later events. -/
theorem c2_team_is_first_seen (env : Env) (sched : List Event)
    (lastRace : Event) (rows : List ResultRow)
    (hs : env.schedule = .ok sched)
    (hl : (completedOf env.now sched).getLast? = some lastRace)
    (hr : env.results lastRace.roundNumber = .ok rows) :
    ∀ row ∈ get_driver_standings env,
      ((fetchedRows env (roundsOf env.now sched)).find?
          (fun r => driverName r == row.driver)).map (fun r => r.teamName) =
        some row.team := by
  intro row hrow
  rw [get_driver_standings_eq_table env sched lastRace rows hs hl hr] at hrow
  obtain ⟨e, he, hd, ht, hp, hw⟩ := driver_table_mem hrow
  have hnd := keys_nodup_accumulateG driverName (fun r => r.teamName) env
    (roundsOf env.now sched)
  have hfe : findEntry row.driver
      (accumulateG driverName (fun r => r.teamName) env
        (roundsOf env.now sched)) = some e.2 := by
    apply findEntry_of_mem hnd
    rw [hd]
    simpa using he
  have h3 := accExtra_accumulateG driverName (fun r => r.teamName) env
    (roundsOf env.now sched) row.driver
  rw [← h3, accExtra, hfe, ht]
  rfl

/-- C2 witness: in the concrete team-change environment the first fetched row
of driver "Alpha One" carries team "TeamFirst", as reported. -/
theorem c2_team_is_first_seen_witness :
    ((fetchedRows envTeamChange (roundsOf envTeamChange.now [evW1, evW2])).find?
        (fun r => driverName r ==
          (⟨Val.int 1, "Alpha One", "TeamFirst", Val.rat 50, Val.int 2⟩ :
            DriverRow).driver)).map (fun r => r.teamName) =
      some (⟨Val.int 1, "Alpha One", "TeamFirst", Val.rat 50, Val.int 2⟩ :
        DriverRow).team :=
  c2_team_is_first_seen envTeamChange [evW1, evW2] evW2 [rowSecondTeam]
    rfl (by decide) rfl _ (by rw [standings_envTeamChange_eval]; simp)

/-- C8: points are summed and wins are counted per competitor over all
successfully fetched completed events: for every key, the accumulated points
equal the sum of that competitor's points over all fetched rows and the
accumulated wins equal the number of fetched rows in which that competitor
has position exactly 1; and every row of the non-sentinel driver standings
reports exactly these two numbers. -/
theorem c8_wins_and_points_counted (env : Env) (sched : List Event)
    (lastRace : Event) (rows : List ResultRow)
    (hs : env.schedule = .ok sched)
    (hl : (completedOf env.now sched).getLast? = some lastRace)
    (hr : env.results lastRace.roundNumber = .ok rows) :
    (∀ X : String,
      accPoints X (driverAcc env (roundsOf env.now sched)) =
        pointsFor driverName X (fetchedRows env (roundsOf env.now sched)) ∧
      accWins X (driverAcc env (roundsOf env.now sched)) =
        winsFor driverName X (fetchedRows env (roundsOf env.now sched))) ∧
    (∀ row ∈ get_driver_standings env,
      row.points = Val.rat (pointsFor driverName row.driver
        (fetchedRows env (roundsOf env.now sched))) ∧
      row.wins = Val.int ((winsFor driverName row.driver
        (fetchedRows env (roundsOf env.now sched)) : Nat) : Int)) := by
  constructor
  · intro X
    exact ⟨accPoints_accumulateG driverName (fun r => r.teamName) env
        (roundsOf env.now sched) X,
      accWins_accumulateG driverName (fun r => r.teamName) env
        (roundsOf env.now sched) X⟩
  · intro row hrow
    rw [get_driver_standings_eq_table env sched lastRace rows hs hl hr] at hrow
    obtain ⟨e, he, hd, ht, hp, hw⟩ := driver_table_mem hrow
    have hnd := keys_nodup_accumulateG driverName (fun r => r.teamName) env
      (roundsOf env.now sched)
    have hfe : findEntry row.driver
        (accumulateG driverName (fun r => r.teamName) env
          (roundsOf env.now sched)) = some e.2 := by
      apply findEntry_of_mem hnd
      rw [hd]
      simpa using he
    constructor
    · rw [hp, ← accPoints_accumulateG driverName (fun r => r.teamName) env
          (roundsOf env.now sched) row.driver, accPoints, hfe]
    · rw [hw, ← accWins_accumulateG driverName (fun r => r.teamName) env
          (roundsOf env.now sched) row.driver, accWins, hfe]

/-- C8 witness: in the three-event environment, driver "Alpha One" (winner of
rounds 1 and 2, third in round 3) is reported with points `65 = 25+25+15` and
wins `2`, equal to the sum and win count over the fetched rows. -/
theorem c8_wins_and_points_counted_witness :
    (⟨Val.int 1, "Alpha One", "TeamX", Val.rat 65, Val.int 2⟩ :
        DriverRow).points =
      Val.rat (pointsFor driverName
        (⟨Val.int 1, "Alpha One", "TeamX", Val.rat 65, Val.int 2⟩ :
          DriverRow).driver
        (fetchedRows envThreeRaces
          (roundsOf envThreeRaces.now [evW1, evW2, evW3]))) ∧
    (⟨Val.int 1, "Alpha One", "TeamX", Val.rat 65, Val.int 2⟩ :
        DriverRow).wins =
      Val.int ((winsFor driverName
        (⟨Val.int 1, "Alpha One", "TeamX", Val.rat 65, Val.int 2⟩ :
          DriverRow).driver
        (fetchedRows envThreeRaces
          (roundsOf envThreeRaces.now [evW1, evW2, evW3])) : Nat) : Int) :=
  (c8_wins_and_points_counted envThreeRaces [evW1, evW2, evW3] evW3
    [rowW3, rowW4] rfl (by decide) rfl).2 _
    (by rw [standings_envThreeRaces_eval]; simp)

/-- C10: on the non-sentinel paths, each team name occurs in exactly one
entry of the constructor standings (whenever the schedule is fetched and the
completed set is nonempty — every non-sentinel team-standings output), and
each competitor name occurs in exactly one entry of the driver standings
(additionally requiring, as the driver path does, that the most recent
event's results load succeeds). -/
theorem c10_keys_unique (env : Env) (sched : List Event)
    (hs : env.schedule = .ok sched)
    (hne : ¬ completedOf env.now sched = []) :
    ((get_team_standings env).map (fun r => r.team)).Nodup ∧
    (∀ (lastRace : Event) (rows : List ResultRow),
      (completedOf env.now sched).getLast? = some lastRace →
      env.results lastRace.roundNumber = .ok rows →
      ((get_driver_standings env).map (fun r => r.driver)).Nodup) := by
  constructor
  · rw [get_team_standings_eq_table env sched hs hne,
      teamStandingsTable, teamRowsFrom_map_team]
    exact ((sortByPointsDesc_perm _).map Prod.fst).symm.nodup
      (keys_nodup_accumulateG _ _ _ _)
  · intro lastRace rows hl hr
    rw [get_driver_standings_eq_table env sched lastRace rows hs hl hr,
      driverStandingsTable, driverRowsFrom_map_driver]
    exact ((sortByPointsDesc_perm _).map Prod.fst).symm.nodup
      (keys_nodup_accumulateG _ _ _ _)

/-- C10 witness on the concrete three-event environment, discharging both the
team-path and the driver-path hypotheses. -/
theorem c10_keys_unique_witness :
    ((get_team_standings envThreeRaces).map (fun r => r.team)).Nodup ∧
    ((get_driver_standings envThreeRaces).map (fun r => r.driver)).Nodup := by
  have h := c10_keys_unique envThreeRaces [evW1, evW2, evW3] rfl (by decide)
  exact ⟨h.1, h.2 evW3 [rowW3, rowW4] (by decide) rfl⟩

/-- C9: selection of the displayed event.  `None` and `-1` select the most
recent completed event; any other index is clamped into `[0, n-1]` (negative
indices other than `-1` select event 0, indices `≥ n` select event `n-1`,
i.e. the most recent); on a successful fetch the returned rows are the
event's rows, each augmented with the event's display name. -/
theorem c9_race_results_selection (env : Env) (lastRace : Event)
    (hl : (get_completed_races env).getLast? = some lastRace) :
    get_race_results env none = eventResultsOf env lastRace ∧
    get_race_results env (some (-1)) = eventResultsOf env lastRace ∧
    (∀ k : Int, ¬ k = -1 →
      get_race_results env (some k) =
        eventResultsOf env ((get_completed_races env).getD
          (max 0 (min k (((get_completed_races env).length : Int) - 1))).toNat
          lastRace)) ∧
    (∀ k : Int, k < 0 → ¬ k = -1 →
      get_race_results env (some k) =
        eventResultsOf env ((get_completed_races env).getD 0 lastRace)) ∧
    (∀ k : Int, ((get_completed_races env).length : Int) ≤ k →
      get_race_results env (some k) = eventResultsOf env lastRace) ∧
    (∀ rows, env.results lastRace.roundNumber = .ok rows →
      get_race_results env none = rows.map (mkRaceRow lastRace.eventName)) ∧
    (∀ (e : Event) (rows : List ResultRow),
      env.results e.roundNumber = .ok rows →
      ∀ row ∈ eventResultsOf env e, row.race_name = some e.eventName) := by
  have hne : get_completed_races env ≠ [] := by
    intro hc
    rw [hc] at hl
    simp at hl
  have hlen : 1 ≤ (get_completed_races env).length :=
    List.length_pos.mpr hne
  have h1 : get_race_results env none = eventResultsOf env lastRace := by
    simp [get_race_results, hl]
  have h3 : ∀ k : Int, ¬ k = -1 →
      get_race_results env (some k) =
        eventResultsOf env ((get_completed_races env).getD
          (max 0 (min k (((get_completed_races env).length : Int) - 1))).toNat
          lastRace) := by
    intro k hk
    simp [get_race_results, hl, hk]
  refine ⟨h1, by simp [get_race_results, hl], h3, ?_, ?_, ?_, ?_⟩
  · intro k hneg hk
    rw [h3 k hk]
    congr 2
    omega
  · intro k hge
    rw [h3 k (by omega)]
    have hidx : (max 0 (min k (((get_completed_races env).length : Int) - 1))).toNat
        = (get_completed_races env).length - 1 := by omega
    rw [hidx]
    congr 1
    rw [List.getLast?_eq_getElem?] at hl
    simp [hl]
  · intro rows hr
    rw [h1]
    simp [eventResultsOf, hr]
  · intro e rows hr row hrow
    rw [eventResultsOf, hr] at hrow
    obtain ⟨r, hrm, hre⟩ := List.mem_map.mp hrow
    rw [← hre]
    rfl

/-- C9 witness on the two-event environment: index `None` selects the last
event, `-3` clamps to event 0, `5` clamps to the last event. -/
theorem c9_race_results_selection_witness :
    get_race_results envTwoRaces none = eventResultsOf envTwoRaces evW2 ∧
    get_race_results envTwoRaces (some (-3)) =
      eventResultsOf envTwoRaces ((get_completed_races envTwoRaces).getD 0 evW2) ∧
    get_race_results envTwoRaces (some 5) = eventResultsOf envTwoRaces evW2 := by
  have h := c9_race_results_selection envTwoRaces evW2 (by decide)
  exact ⟨h.1, h.2.2.2.1 (-3) (by decide) (by decide),
    h.2.2.2.2.1 5 (by decide)⟩

/-- C6 counterexample: with one completed event whose results fetch fails, the
constructor-standings loop skips it, the accumulation map stays empty, and
`get_team_standings` returns the empty sequence — not a single sentinel row as
the claim states. -/
theorem c6_counterexample :
    get_team_standings envAllFail = [] ∧
    ¬ (get_team_standings envAllFail).length = 1 := by
  have h : get_team_standings envAllFail = [] := by
    simp [get_team_standings, envAllFail, completedOf, evR, teamAcc,
      accumulateG, teamStandingsTable, sortByPointsDesc, teamRowsFrom]
  exact ⟨h, by rw [h]; simp⟩

/-- C6 (amended): no exception propagates out of the public operations (they
are total functions into row lists).  When the season-schedule fetch fails,
`get_driver_standings`, `get_team_standings` and `get_race_schedule` each
return exactly one generic "Failed to load data" sentinel row, while
`get_race_results` returns the one "No completed races" sentinel row (its
`get_completed_races` helper swallows the schedule failure into an empty
list, so that cause is not distinguished from an empty season).  When an
event-results fetch fails, `get_race_results` and `get_driver_standings`
(for the most recent event) return one failure sentinel row each, but
`get_team_standings` may return an empty sequence — with every event fetch
failing it returns `[]`, not a sentinel. -/
theorem c6_no_propagation_sentinels :
    (∀ (res : Nat → Except Unit (List ResultRow)) (now : Int)
        (idx : Option Int),
      get_driver_standings ⟨Except.error (), res, now⟩ = [errorDriverRow] ∧
      get_team_standings ⟨Except.error (), res, now⟩ = [errorTeamRow] ∧
      get_race_schedule ⟨Except.error (), res, now⟩ = [errorScheduleRow] ∧
      get_race_results ⟨Except.error (), res, now⟩ idx = [noRacesRaceRow]) ∧
    get_driver_standings envAllFail = [errorDriverRow] ∧
    get_race_results envAllFail none = [errorRaceRow] ∧
    get_team_standings envAllFail = [] := by
  refine ⟨?_, ?_, ?_, ?_⟩
  · intro res now idx
    exact ⟨by simp [get_driver_standings],
      by simp [get_team_standings],
      by simp [get_race_schedule],
      by simp [get_race_results, get_completed_races]⟩
  · simp [get_driver_standings, envAllFail, completedOf, evR]
  · simp [get_race_results, get_completed_races, envAllFail, completedOf,
      evR, eventResultsOf]
  · simp [get_team_standings, envAllFail, completedOf, evR, teamAcc,
      accumulateG, teamStandingsTable, sortByPointsDesc, teamRowsFrom]

theorem completedOf_filter (now : Int) (sched : List Event)
    (p : Event → Bool) :
    completedOf now (sched.filter p) = (completedOf now sched).filter p := by
  rw [completedOf, completedOf, List.filter_filter, List.filter_filter]
  congr 1
  funext e
  exact Bool.and_comm _ _

theorem roundsOf_filter (now : Int) (sched : List Event) (f : Nat) :
    roundsOf now (sched.filter (fun e => ! (e.roundNumber == f))) =
      (roundsOf now sched).filter (fun r => ! (r == f)) := by
  rw [roundsOf, roundsOf, completedOf_filter]
  induction completedOf now sched with
  | nil => rfl
  | cons e es ih =>
    by_cases hc : e.roundNumber = f <;>
      simp [List.filter_cons, hc, ih]

theorem fetchedRows_filter_failed (env : Env) (f : Nat)
    (hf : env.results f = .error ()) (rounds : List Nat) :
    fetchedRows env (rounds.filter (fun r => ! (r == f))) =
      fetchedRows env rounds := by
  induction rounds with
  | nil => rfl
  | cons r rs ih =>
    by_cases hc : r = f
    · subst hc
      simp [List.filter_cons, fetchedRows, rowsOf, hf, ih]
    · simp [List.filter_cons, fetchedRows, hc, ih]

theorem fetchedRows_congr {env env' : Env} (h : env.results = env'.results)
    (rounds : List Nat) : fetchedRows env rounds = fetchedRows env' rounds := by
  induction rounds with
  | nil => rfl
  | cons r rs ih => simp [fetchedRows, rowsOf, h, ih]

theorem getLast?_filter {p : Event → Bool} {l : List Event} {a : Event}
    (hl : l.getLast? = some a) (hp : p a = true) :
    (l.filter p).getLast? = some a := by
  induction l with
  | nil => simp at hl
  | cons x xs ih =>
    cases hxs : xs with
    | nil =>
      subst hxs
      have hax : x = a := by simpa using hl
      subst hax
      simp [List.filter_cons, hp]
    | cons y ys =>
      subst hxs
      have h2 := ih (by simpa [List.getLast?_cons_cons] using hl)
      have hne : (y :: ys).filter p ≠ [] := by
        intro hc
        rw [hc] at h2
        simp at h2
      rw [List.filter_cons]
      by_cases hx : p x = true
      · rw [if_pos hx]
        cases hfc : (y :: ys).filter p with
        | nil => exact absurd hfc hne
        | cons b bs =>
          rw [hfc] at h2
          simpa [List.getLast?_cons_cons] using h2
      · rw [if_neg hx]
        exact h2

/-- C7 counterexample: with five completed events and the fetch of the most
recent one failing, `get_driver_standings` does NOT return the standings of
the other four events — the pre-aggregation load of the most recent race
(lines 112-123) raises into the outer `except`, so the single failure
sentinel is returned instead. -/
theorem c7_counterexample :
    get_driver_standings envLastFails = [errorDriverRow] ∧
    ¬ get_driver_standings envLastFails =
        get_driver_standings envLastRemoved := by
  have h1 : get_driver_standings envLastFails = [errorDriverRow] := by
    simp [get_driver_standings, envLastFails, completedOf, evR]
  have h2 : get_driver_standings envLastRemoved =
      [⟨Val.int 1, "A B", "T", Val.rat 100, Val.int 4⟩] := by
    simp [get_driver_standings, envLastRemoved, completedOf, evR, driverAcc,
      accumulateG, addRowG, bumpRow, driverName, rowsSimple,
      driverStandingsTable, sortByPointsDesc, insertByPointsDesc, mkDriverRow,
      driverRowsFrom, findEntry,
      (by norm_num : (25 : ℚ) + 25 = 50),
      (by norm_num : (50 : ℚ) + 25 = 75),
      (by norm_num : (75 : ℚ) + 25 = 100)]
  refine ⟨h1, ?_⟩
  rw [h1, h2]
  decide

/-- C7 (amended): if fetching the results of the single event with round
number `f` fails, the constructor standings equal those of the season with
that event removed (whenever at least one completed event remains), and the
driver standings do too PROVIDED the failing event is not the most recent
completed one and the most recent event's fetch succeeds — when the most
recent event's fetch fails, `get_driver_standings` instead returns the
failure sentinel (see the counterexample). -/
theorem c7_failure_isolation (env : Env) (sched : List Event) (f : Nat)
    (hs : env.schedule = .ok sched)
    (hf : env.results f = .error ()) :
    (¬ completedOf env.now
        (sched.filter (fun e => ! (e.roundNumber == f))) = [] →
      get_team_standings env =
        get_team_standings
          ⟨Except.ok (sched.filter (fun e => ! (e.roundNumber == f))),
            env.results, env.now⟩) ∧
    (∀ (lastRace : Event) (rows : List ResultRow),
      (completedOf env.now sched).getLast? = some lastRace →
      ¬ lastRace.roundNumber = f →
      env.results lastRace.roundNumber = .ok rows →
      get_driver_standings env =
        get_driver_standings
          ⟨Except.ok (sched.filter (fun e => ! (e.roundNumber == f))),
            env.results, env.now⟩) := by
  constructor
  · intro hne'
    have hneOrig : ¬ completedOf env.now sched = [] := by
      intro hc
      apply hne'
      rw [completedOf_filter, hc]
      rfl
    rw [get_team_standings_eq_table env sched hs hneOrig,
      get_team_standings_eq_table
        ⟨Except.ok (sched.filter (fun e => ! (e.roundNumber == f))),
          env.results, env.now⟩
        (sched.filter (fun e => ! (e.roundNumber == f))) rfl hne']
    congr 1
    rw [teamAcc, teamAcc, accumulateG_eq_foldl, accumulateG_eq_foldl]
    congr 1
    rw [roundsOf_filter, fetchedRows_filter_failed
      ⟨Except.ok (sched.filter (fun e => ! (e.roundNumber == f))),
        env.results, env.now⟩ f hf]
    exact @fetchedRows_congr env
      ⟨Except.ok (sched.filter (fun e => ! (e.roundNumber == f))),
        env.results, env.now⟩ rfl _
  · intro lastRace rows hl hlf hr
    have hl' : (completedOf env.now
        (sched.filter (fun e => ! (e.roundNumber == f)))).getLast?
        = some lastRace := by
      rw [completedOf_filter]
      exact getLast?_filter hl (by simp [hlf])
    rw [get_driver_standings_eq_table env sched lastRace rows hs hl hr,
      get_driver_standings_eq_table
        ⟨Except.ok (sched.filter (fun e => ! (e.roundNumber == f))),
          env.results, env.now⟩
        (sched.filter (fun e => ! (e.roundNumber == f))) lastRace rows rfl
        hl' hr]
    congr 1
    rw [driverAcc, driverAcc, accumulateG_eq_foldl, accumulateG_eq_foldl]
    congr 1
    rw [roundsOf_filter, fetchedRows_filter_failed
      ⟨Except.ok (sched.filter (fun e => ! (e.roundNumber == f))),
        env.results, env.now⟩ f hf]
    exact @fetchedRows_congr env
      ⟨Except.ok (sched.filter (fun e => ! (e.roundNumber == f))),
        env.results, env.now⟩ rfl _

/-- C7 witness: with three completed events and the middle fetch (round 2)
failing, both standings equal those of the season without round 2. -/
theorem c7_failure_isolation_witness :
    get_team_standings envMidFails =
      get_team_standings
        ⟨Except.ok
            ([evR 1, evR 2, evR 3].filter (fun e => ! (e.roundNumber == 2))),
          envMidFails.results, envMidFails.now⟩ ∧
    get_driver_standings envMidFails =
      get_driver_standings
        ⟨Except.ok
            ([evR 1, evR 2, evR 3].filter (fun e => ! (e.roundNumber == 2))),
          envMidFails.results, envMidFails.now⟩ := by
  have h := c7_failure_isolation envMidFails [evR 1, evR 2, evR 3] 2 rfl rfl
  exact ⟨h.1 (by decide), h.2 (evR 3) rowsSimple (by decide) (by decide) rfl⟩

end LazyF1
